import Mathlib

/-!
Verification of the nat-puncher utility core.

IPv4 addresses are embedded as natural numbers below 2^32 (the dotted-quad
string parsing of ipaddr.js is bijective onto these, so claims quantified
over valid address strings are quantified over such numbers).  JavaScript
arrays become lists, Array.prototype.indexOf becomes jsIndexOf (none for -1),
and undefined results become none.
-/

namespace NatPuncher

/-- Numeric value of the dotted-quad IPv4 address a.b.c.d. -/
def ipv4 (a b c d : Nat) : Nat := ((a * 256 + b) * 256 + c) * 256 + d

/-- List of popular router default IPs, used as destination addresses for
NAT-PMP and PCP requests (ROUTER_IPS in the source). -/
def ROUTER_IPS : List Nat :=
  [ipv4 192 168 1 1, ipv4 192 168 2 1, ipv4 192 168 11 1,
   ipv4 192 168 0 1, ipv4 192 168 0 30, ipv4 192 168 0 50, ipv4 192 168 20 1,
   ipv4 192 168 30 1, ipv4 192 168 62 1, ipv4 192 168 100 1, ipv4 192 168 102 1,
   ipv4 192 168 1 254, ipv4 192 168 10 1, ipv4 192 168 123 254, ipv4 192 168 4 1,
   ipv4 10 0 1 1, ipv4 10 1 1 1, ipv4 10 0 0 13, ipv4 10 0 0 2, ipv4 10 0 0 138]

/-- ipaddr.js ip.match(matchIp, mask): the two addresses agree on their first
mask bits, i.e. they are equal after discarding the low 32 - mask bits. -/
def matchMask (ip m mask : Nat) : Bool := ip / 2 ^ (32 - mask) == m / 2 ^ (32 - mask)

/-- The inner loop of longestPrefixMatch: for mask = 1,...,31, at the first
mask where the addresses disagree, push mask - 1 and stop.  When all 31
tests agree (the addresses share at least 31 leading bits) nothing is
pushed, which the option none records. -/
def prefixMatchLoop (ip m : Nat) : Option Nat :=
  ((List.range' 1 31).find? (fun mask => ! matchMask ip m mask)).map (fun mask => mask - 1)

/-- Array.prototype.indexOf, with none standing for the JS result -1. -/
def jsIndexOf : List Nat → Nat → Option Nat
  | [], _ => none
  | a :: t, x => if a = x then some 0 else (jsIndexOf t x).map (· + 1)

/-- longestPrefixMatch from the source.  prefixMatches collects the pushed
values (skipping entries whose loop pushed nothing); Math.max over the empty
array is -Infinity, whose indexOf is -1, and ipList[-1] is undefined, all of
which collapse to the none branch of jsIndexOf. -/
def longestPrefixMatch (ipList : List Nat) (matchIp : Nat) : Option Nat :=
  let prefixMatches := ipList.filterMap (fun ip => prefixMatchLoop ip matchIp)
  match jsIndexOf prefixMatches (prefixMatches.foldl max 0) with
  | some maxIndex => ipList.get? maxIndex
  | none => none

/-- filterRouterIps from the source: one longestPrefixMatch result pushed per
private IP, in input order. -/
def filterRouterIps (privateIps : List Nat) : List (Option Nat) :=
  privateIps.map (fun p => longestPrefixMatch ROUTER_IPS p)

/-- Number of leading bits on which the two 32-bit addresses agree (the
shared network-prefix length the spec speaks about). -/
def sharedPrefixLen (ip m : Nat) : Nat :=
  Nat.findGreatest (fun k => ip / 2 ^ (32 - k) = m / 2 ^ (32 - k)) 32

/-- An address lies in one of the RFC 1918 private blocks 10.0.0.0/8,
172.16.0.0/12, 192.168.0.0/16. -/
def isPrivateIPv4 (a : Nat) : Prop :=
  a / 2 ^ 24 = 10 ∨ a / 2 ^ 20 = 2753 ∨ a / 2 ^ 16 = 49320

instance (a : Nat) : Decidable (isPrivateIPv4 a) := by
  unfold isPrivateIPv4
  infer_instance

/-- A port mapping record, as laid out by the Mapping constructor.  Fields
possibly left undefined are options; externalPort is an integer because of
its -1 failure sentinel. -/
structure Mapping where
  internalIp : Option String
  internalPort : Option Nat
  externalIp : Option String
  externalPort : Int
  lifetime : Option Nat
  protocol : Option String
  timeoutId : Option Nat
  nonce : Option (List Nat)
  deleter : Option (Unit → Unit)
  errInfo : Option String

/-- The Mapping constructor: every field is set to undefined except
externalPort, which is set to the failure sentinel -1. -/
def newMapping : Mapping :=
  ⟨none, none, none, -1, none, none, none, none, none, none⟩

/-- Observable events of the countdownReject timer body, in order. -/
inductive TimerEvent where
  | callbackRun : TimerEvent
  | rejectErr : String → TimerEvent
deriving DecidableEq

/-- countdownReject from the source, as the ordered trace of the events its
timer handler performs once the duration elapses (no competing success has
settled the race): the cleanup callback runs first when one was supplied,
then the promise is rejected with an Error carrying msg. -/
def countdownReject (time : Nat) (msg : String) (callback : Option Unit) : List TimerEvent :=
  (if callback.isSome then [TimerEvent.callbackRun] else []) ++ [TimerEvent.rejectErr msg]

/-- True exactly on the callbackRun event. -/
def isCallbackRun : TimerEvent → Bool
  | TimerEvent.callbackRun => true
  | TimerEvent.rejectErr _ => false

/-- One step of the arrAdd loops: push a onto sum unless already present
(sum.indexOf(a) !== -1 in the source). -/
def addUnique {α : Type} [DecidableEq α] (sum : List α) (a : α) : List α :=
  if a ∈ sum then sum else sum ++ [a]

/-- arrAdd from the source: fold listA into an empty accumulator, then fold
listB into the result, skipping elements already present. -/
def arrAdd {α : Type} [DecidableEq α] (listA listB : List α) : List α :=
  listB.foldl addUnique (listA.foldl addUnique [])

/-- arrDiff from the source: push each element of listA whose index in listB
is -1. -/
def arrDiff {α : Type} [DecidableEq α] (listA listB : List α) : List α :=
  listA.foldl (fun diff a => if a ∈ listB then diff else diff ++ [a]) []

/-- Specification-side definition (first-seen-order set semantics): keep
each element the first time it appears, dropping every later repetition;
seen accumulates the elements already emitted. -/
def dedupFirstAux {α : Type} [DecidableEq α] (seen : List α) : List α → List α
  | [] => []
  | x :: xs => if x ∈ seen then dedupFirstAux seen xs else x :: dedupFirstAux (x :: seen) xs

/-- Specification-side definition: the deduplication of a list that keeps
first occurrences in order. -/
def dedupFirst {α : Type} [DecidableEq α] (l : List α) : List α := dedupFirstAux [] l

/-! ### BinaryFrameCodec

A buffer under construction is a function from byte index to byte value
(zero-initialized, as ArrayBuffer is); createArrayBuffer materializes the
first bytes of it as a list.  DataView.setInt8/setInt16/setInt32 with the
big-endian flag store the k = 1, 2 or 4 base-256 digits of the value
(reduced mod 2^(8k), which for a natural number value is digit
j = v / 256^(k-1-j) % 256) at consecutive offsets.  The claims only concern
in-bounds writes, where DataView does not throw. -/

/-- A matrix row: (bit width, byte offset, value). -/
abbrev Row : Type := Nat × Nat × Nat

/-- Store the k big-endian base-256 digits of v at offsets
off, ..., off + k - 1. -/
def writeBE (buf : Nat → Nat) (off k v : Nat) : Nat → Nat :=
  fun i => if off ≤ i ∧ i < off + k then v / 256 ^ (off + k - 1 - i) % 256 else buf i

/-- The body of the createArrayBuffer loop: dispatch on the row's bit width,
writing 1, 2 or 4 big-endian bytes, or append the console.error report for
any other width.  The state is the buffer contents plus the error log. -/
def applyRow (st : (Nat → Nat) × List String) (row : Row) : (Nat → Nat) × List String :=
  if row.1 = 8 then (writeBE st.1 row.2.1 1 row.2.2, st.2)
  else if row.1 = 16 then (writeBE st.1 row.2.1 2 row.2.2, st.2)
  else if row.1 = 32 then (writeBE st.1 row.2.1 4 row.2.2, st.2)
  else (st.1, st.2 ++ ["Invalid parameters to createArrayBuffer"])

/-- The buffer component of applyRow on its own (the error log never feeds
back into the bytes written). -/
def applyRowBuf (buf : Nat → Nat) (row : Row) : Nat → Nat :=
  if row.1 = 8 then writeBE buf row.2.1 1 row.2.2
  else if row.1 = 16 then writeBE buf row.2.1 2 row.2.2
  else if row.1 = 32 then writeBE buf row.2.1 4 row.2.2
  else buf

/-- createArrayBuffer from the source: fold the matrix over a
zero-initialized buffer of the given size, returning the resulting bytes
together with the console.error log. -/
def createArrayBuffer (bytes : Nat) (matrix : List Row) : List Nat × List String :=
  ((List.range bytes).map (matrix.foldl applyRow (fun _ => 0, [])).1,
   (matrix.foldl applyRow (fun _ => 0, [])).2)

/-- The row's width is one of the three the codec accepts. -/
def widthOk (row : Row) : Prop := row.1 = 8 ∨ row.1 = 16 ∨ row.1 = 32

instance (row : Row) : Decidable (widthOk row) := by
  unfold widthOk
  infer_instance

/-- Boolean form of widthOk. -/
def widthOkB (row : Row) : Bool := row.1 == 8 || row.1 == 16 || row.1 == 32

/-- Number of bytes a row occupies. -/
def rowBytes (row : Row) : Nat := row.1 / 8

/-- The row's field occupies byte index i. -/
def covers (row : Row) (i : Nat) : Prop := row.2.1 ≤ i ∧ i < row.2.1 + rowBytes row

instance (row : Row) (i : Nat) : Decidable (covers row i) := by
  unfold covers
  infer_instance

/-- Two rows touch no common byte. -/
def rowsDisjoint (r s : Row) : Prop := ∀ i, ¬ (covers r i ∧ covers s i)

/-- Big-endian read of k bytes starting at off, the symmetric decode of the
addressing scheme used by createArrayBuffer.
Modelled from the spec: the decode side of BinaryFrameCodec is not among the
source files; the spec describes it as the same addressing scheme applied to
read rather than write at each offset and width. -/
def readBE (buf : List Nat) (off : Nat) : Nat → Nat
  | 0 => 0
  | k + 1 => buf.getD off 0 * 256 ^ k + readBE buf (off + 1) k

/-- Modelled from the spec: decode every field of the spec list from the
buffer by the symmetric big-endian read at its own offset and width. -/
def decodeFields (buf : List Nat) (matrix : List Row) : List Nat :=
  matrix.map (fun r => readBE buf r.2.1 (rowBytes r))

/-! ### Lemmas about the set-reconciliation helpers -/

theorem dedupFirstAux_congr {α : Type} [DecidableEq α] (l : List α) (s t : List α)
    (h : ∀ y, y ∈ s ↔ y ∈ t) : dedupFirstAux s l = dedupFirstAux t l := by
  induction l generalizing s t with
  | nil => rfl
  | cons a xs ih =>
    simp only [dedupFirstAux]
    by_cases ha : a ∈ s
    · rw [if_pos ha, if_pos ((h a).mp ha), ih s t h]
    · have hmem : ∀ y, y ∈ a :: s ↔ y ∈ a :: t := by
        intro y
        simp only [List.mem_cons]
        exact or_congr Iff.rfl (h y)
      rw [if_neg ha, if_neg (fun hat => ha ((h a).mpr hat)), ih (a :: s) (a :: t) hmem]

theorem foldl_addUnique_eq {α : Type} [DecidableEq α] (l : List α) (s : List α) :
    l.foldl addUnique s = s ++ dedupFirstAux s l := by
  induction l generalizing s with
  | nil => simp [dedupFirstAux]
  | cons a xs ih =>
    simp only [List.foldl_cons, addUnique, dedupFirstAux]
    by_cases ha : a ∈ s
    · rw [if_pos ha, if_pos ha, ih s]
    · have hmem : ∀ y, y ∈ s ++ [a] ↔ y ∈ a :: s := by
        intro y
        simp only [List.mem_append, List.mem_singleton, List.mem_cons]
        tauto
      rw [if_neg ha, if_neg ha, ih (s ++ [a]),
        dedupFirstAux_congr xs (s ++ [a]) (a :: s) hmem, List.append_assoc]
      rfl

theorem mem_dedupFirstAux {α : Type} [DecidableEq α] (l : List α) (seen : List α) (x : α) :
    x ∈ dedupFirstAux seen l ↔ x ∈ l ∧ x ∉ seen := by
  induction l generalizing seen with
  | nil => simp [dedupFirstAux]
  | cons a xs ih =>
    simp only [dedupFirstAux]
    by_cases ha : a ∈ seen
    · rw [if_pos ha, ih seen]
      simp only [List.mem_cons]
      constructor
      · rintro ⟨hx, hs⟩
        exact ⟨Or.inr hx, hs⟩
      · rintro ⟨hx | hx, hs⟩
        · exact absurd (hx ▸ ha) hs
        · exact ⟨hx, hs⟩
    · rw [if_neg ha]
      simp only [List.mem_cons, ih (a :: seen), List.mem_cons]
      constructor
      · rintro (rfl | ⟨hx, hs⟩)
        · exact ⟨Or.inl rfl, ha⟩
        · exact ⟨Or.inr hx, fun hxs => hs (Or.inr hxs)⟩
      · rintro ⟨rfl | hx, hs⟩
        · exact Or.inl rfl
        · by_cases hxa : x = a
          · exact Or.inl hxa
          · exact Or.inr ⟨hx, fun hxc => hxc.elim hxa hs⟩

theorem nodup_dedupFirstAux {α : Type} [DecidableEq α] (l : List α) (seen : List α) :
    (dedupFirstAux seen l).Nodup := by
  induction l generalizing seen with
  | nil => simp [dedupFirstAux]
  | cons a xs ih =>
    simp only [dedupFirstAux]
    by_cases ha : a ∈ seen
    · rw [if_pos ha]
      exact ih seen
    · rw [if_neg ha]
      refine List.Nodup.cons ?_ (ih (a :: seen))
      intro hmem
      rw [mem_dedupFirstAux] at hmem
      exact hmem.2 (List.mem_cons_self a seen)

theorem dedupFirstAux_append {α : Type} [DecidableEq α] (l1 l2 s : List α) :
    dedupFirstAux s (l1 ++ l2) = dedupFirstAux s l1 ++ dedupFirstAux (l1 ++ s) l2 := by
  induction l1 generalizing s with
  | nil => simp [dedupFirstAux]
  | cons a xs ih =>
    simp only [List.cons_append, dedupFirstAux, List.append_eq]
    by_cases ha : a ∈ s
    · rw [if_pos ha, if_pos ha, ih s]
      congr 1
      refine dedupFirstAux_congr l2 (xs ++ s) (a :: (xs ++ s)) ?_
      intro y
      simp only [List.mem_cons]
      constructor
      · exact Or.inr
      · rintro (rfl | h)
        · exact List.mem_append_right xs ha
        · exact h
    · rw [if_neg ha, if_neg ha, List.cons_append]
      congr 1
      rw [ih (a :: s)]
      congr 1
      refine dedupFirstAux_congr l2 (xs ++ a :: s) (a :: (xs ++ s)) ?_
      intro y
      simp only [List.mem_append, List.mem_cons]
      tauto

theorem arrAdd_eq_dedupFirst {α : Type} [DecidableEq α] (A B : List α) :
    arrAdd A B = dedupFirst (A ++ B) := by
  unfold arrAdd dedupFirst
  rw [foldl_addUnique_eq A [], List.nil_append, foldl_addUnique_eq B (dedupFirstAux [] A),
    dedupFirstAux_append A B []]
  congr 1
  refine dedupFirstAux_congr B (dedupFirstAux [] A) (A ++ []) ?_
  intro y
  rw [mem_dedupFirstAux]
  simp

theorem arrDiff_eq_filter {α : Type} [DecidableEq α] (A B : List α) :
    arrDiff A B = A.filter (fun a => a ∉ B) := by
  suffices h : ∀ acc : List α,
      A.foldl (fun diff a => if a ∈ B then diff else diff ++ [a]) acc
        = acc ++ A.filter (fun a => a ∉ B) by
    simpa [arrDiff] using h []
  induction A with
  | nil => intro acc; simp
  | cons a xs ih =>
    intro acc
    simp only [List.foldl_cons, List.filter_cons]
    by_cases ha : a ∈ B
    · rw [if_pos ha]
      simp [ha, ih]
    · rw [if_neg ha]
      simp [ha, ih, List.append_assoc]

/-! ### Lemmas about createArrayBuffer -/

theorem widthOkB_eq (row : Row) : widthOkB row = true ↔ widthOk row := by
  simp only [widthOkB, widthOk, Bool.or_eq_true, beq_iff_eq]
  tauto

theorem applyRow_fst (st : (Nat → Nat) × List String) (row : Row) :
    (applyRow st row).1 = applyRowBuf st.1 row := by
  unfold applyRow applyRowBuf
  split_ifs <;> rfl

theorem applyRow_snd_len (st : (Nat → Nat) × List String) (row : Row) :
    (applyRow st row).2.length = st.2.length + (if widthOkB row = true then 0 else 1) := by
  unfold applyRow
  by_cases h1 : row.1 = 8
  · rw [if_pos h1]
    simp [widthOkB, h1]
  · rw [if_neg h1]
    by_cases h2 : row.1 = 16
    · rw [if_pos h2]
      simp [widthOkB, h2]
    · rw [if_neg h2]
      by_cases h3 : row.1 = 32
      · rw [if_pos h3]
        simp [widthOkB, h3]
      · rw [if_neg h3]
        simp [widthOkB, h1, h2, h3]

theorem foldl_applyRow_fst (matrix : List Row) (st : (Nat → Nat) × List String) :
    (matrix.foldl applyRow st).1 = matrix.foldl applyRowBuf st.1 := by
  induction matrix generalizing st with
  | nil => rfl
  | cons r t ih =>
    simp only [List.foldl_cons]
    rw [ih (applyRow st r), applyRow_fst st r]

theorem foldl_applyRow_snd_len (matrix : List Row) (st : (Nat → Nat) × List String) :
    (matrix.foldl applyRow st).2.length = st.2.length + matrix.countP (fun r => ! widthOkB r) := by
  induction matrix generalizing st with
  | nil => simp
  | cons r t ih =>
    simp only [List.foldl_cons, List.countP_cons]
    rw [ih (applyRow st r), applyRow_snd_len st r]
    cases h : widthOkB r <;> simp [h] <;> omega

theorem applyRowBuf_invalid (buf : Nat → Nat) (row : Row) (h : ¬ widthOk row) :
    applyRowBuf buf row = buf := by
  unfold widthOk at h
  push_neg at h
  unfold applyRowBuf
  rw [if_neg h.1, if_neg h.2.1, if_neg h.2.2]

theorem foldl_applyRowBuf_filter (matrix : List Row) (f : Nat → Nat) :
    matrix.foldl applyRowBuf f = (matrix.filter widthOkB).foldl applyRowBuf f := by
  induction matrix generalizing f with
  | nil => rfl
  | cons r t ih =>
    simp only [List.foldl_cons, List.filter_cons]
    by_cases h : widthOkB r = true
    · rw [if_pos h, List.foldl_cons]
      exact ih (applyRowBuf f r)
    · rw [if_neg h, applyRowBuf_invalid f r (fun hw => h ((widthOkB_eq r).mpr hw))]
      exact ih f

theorem writeBE_notin (buf : Nat → Nat) (off k v i : Nat) (h : ¬ (off ≤ i ∧ i < off + k)) :
    writeBE buf off k v i = buf i := by
  unfold writeBE
  exact if_neg h

theorem applyRowBuf_notcovers (buf : Nat → Nat) (row : Row) (i : Nat) (h : ¬ covers row i) :
    applyRowBuf buf row i = buf i := by
  unfold covers at h
  unfold applyRowBuf
  by_cases h1 : row.1 = 8
  · rw [if_pos h1]
    refine writeBE_notin buf row.2.1 1 row.2.2 i ?_
    have hb : rowBytes row = 1 := by rw [rowBytes, h1]
    rw [hb] at h
    exact h
  · rw [if_neg h1]
    by_cases h2 : row.1 = 16
    · rw [if_pos h2]
      refine writeBE_notin buf row.2.1 2 row.2.2 i ?_
      have hb : rowBytes row = 2 := by rw [rowBytes, h2]
      rw [hb] at h
      exact h
    · rw [if_neg h2]
      by_cases h3 : row.1 = 32
      · rw [if_pos h3]
        refine writeBE_notin buf row.2.1 4 row.2.2 i ?_
        have hb : rowBytes row = 4 := by rw [rowBytes, h3]
        rw [hb] at h
        exact h
      · rw [if_neg h3]

theorem applyRowBuf_covers (buf : Nat → Nat) (row : Row) (i : Nat)
    (hw : widthOk row) (h : covers row i) :
    applyRowBuf buf row i = row.2.2 / 256 ^ (row.2.1 + rowBytes row - 1 - i) % 256 := by
  unfold covers at h
  unfold applyRowBuf writeBE
  rcases hw with h1 | h1 | h1
  · have hb : rowBytes row = 1 := by rw [rowBytes, h1]
    rw [hb] at h ⊢
    rw [if_pos h1, if_pos h]
  · have hb : rowBytes row = 2 := by rw [rowBytes, h1]
    rw [hb] at h ⊢
    rw [if_neg (by omega), if_pos h1, if_pos h]
  · have hb : rowBytes row = 4 := by rw [rowBytes, h1]
    rw [hb] at h ⊢
    rw [if_neg (by omega), if_neg (by omega), if_pos h1, if_pos h]

theorem foldl_applyRowBuf_untouched (matrix : List Row) (f : Nat → Nat) (i : Nat)
    (h : ∀ r ∈ matrix, ¬ covers r i) :
    matrix.foldl applyRowBuf f i = f i := by
  induction matrix generalizing f with
  | nil => rfl
  | cons r t ih =>
    rw [List.foldl_cons, ih (applyRowBuf f r) (fun s hs => h s (List.mem_cons_of_mem r hs)),
      applyRowBuf_notcovers f r i (h r (List.mem_cons_self r t))]

theorem foldl_applyRowBuf_write (r : Row) (i : Nat) (hw : widthOk r) (hc : covers r i) :
    ∀ (matrix : List Row) (f : Nat → Nat), r ∈ matrix → matrix.Pairwise rowsDisjoint →
      matrix.foldl applyRowBuf f i = r.2.2 / 256 ^ (r.2.1 + rowBytes r - 1 - i) % 256 := by
  intro matrix
  induction matrix with
  | nil => intro f hr _; cases hr
  | cons s t ih =>
    intro f hr hd
    rw [List.foldl_cons]
    rcases List.mem_cons.mp hr with rfl | hrt
    · have hdis := List.pairwise_cons.mp hd
      have hnone : ∀ u ∈ t, ¬ covers u i := fun u hu hcu => hdis.1 u hu i ⟨hc, hcu⟩
      rw [foldl_applyRowBuf_untouched t (applyRowBuf f r) i hnone]
      exact applyRowBuf_covers f r i hw hc
    · exact ih (applyRowBuf f s) hrt (List.pairwise_cons.mp hd).2

theorem createArrayBuffer_length (bytes : Nat) (matrix : List Row) :
    (createArrayBuffer bytes matrix).1.length = bytes := by
  show ((List.range bytes).map _).length = bytes
  rw [List.length_map, List.length_range]

theorem createArrayBuffer_getD (bytes : Nat) (matrix : List Row) (i : Nat) (hi : i < bytes) :
    (createArrayBuffer bytes matrix).1.getD i 0 = matrix.foldl applyRowBuf (fun _ => 0) i := by
  show ((List.range bytes).map (matrix.foldl applyRow (fun _ => 0, [])).1).getD i 0 = _
  rw [foldl_applyRow_fst]
  rw [List.getD_eq_getElem?_getD, List.getElem?_map, List.getElem?_range hi]
  rfl

theorem createArrayBuffer_field_byte (bytes : Nat) (matrix : List Row) (r : Row) (j : Nat)
    (hr : r ∈ matrix) (hw : widthOk r) (hj : j < rowBytes r)
    (hb : r.2.1 + rowBytes r ≤ bytes) (hd : matrix.Pairwise rowsDisjoint) :
    (createArrayBuffer bytes matrix).1.getD (r.2.1 + j) 0
      = r.2.2 / 256 ^ (rowBytes r - 1 - j) % 256 := by
  have hcov : covers r (r.2.1 + j) := ⟨Nat.le_add_right _ _, Nat.add_lt_add_left hj _⟩
  have hi : r.2.1 + j < bytes := lt_of_lt_of_le (Nat.add_lt_add_left hj _) hb
  rw [createArrayBuffer_getD bytes matrix _ hi,
    foldl_applyRowBuf_write r (r.2.1 + j) hw hcov matrix (fun _ => 0) hr hd]
  have he : r.2.1 + rowBytes r - 1 - (r.2.1 + j) = rowBytes r - 1 - j := by omega
  rw [he]

theorem createArrayBuffer_zero_byte (bytes : Nat) (matrix : List Row) (i : Nat)
    (hi : i < bytes) (h : ∀ r ∈ matrix, ¬ covers r i) :
    (createArrayBuffer bytes matrix).1.getD i 0 = 0 := by
  rw [createArrayBuffer_getD bytes matrix i hi, foldl_applyRowBuf_untouched matrix _ i h]

theorem rowsDisjoint_symm : ∀ r s : Row, rowsDisjoint r s → rowsDisjoint s r :=
  fun _ _ h i hc => h i ⟨hc.2, hc.1⟩

theorem createArrayBuffer_perm (bytes : Nat) (matrix matrix2 : List Row)
    (hw : ∀ r ∈ matrix, widthOk r) (hd : matrix.Pairwise rowsDisjoint)
    (hp : matrix.Perm matrix2) :
    (createArrayBuffer bytes matrix2).1 = (createArrayBuffer bytes matrix).1 := by
  have hd2 : matrix2.Pairwise rowsDisjoint :=
    (List.Perm.pairwise_iff (fun hab => rowsDisjoint_symm _ _ hab) hp).mp hd
  apply List.ext_getElem
  · rw [createArrayBuffer_length, createArrayBuffer_length]
  · intro i h1 h2
    have hi : i < bytes := by rwa [createArrayBuffer_length] at h1
    have e1 : (createArrayBuffer bytes matrix2).1[i] = (createArrayBuffer bytes matrix2).1.getD i 0 :=
      (List.getD_eq_getElem _ _ h1).symm
    have e2 : (createArrayBuffer bytes matrix).1[i] = (createArrayBuffer bytes matrix).1.getD i 0 :=
      (List.getD_eq_getElem _ _ h2).symm
    by_cases hc : ∃ r ∈ matrix, covers r i
    · rcases hc with ⟨r, hr, hcov⟩
      have hr2 : r ∈ matrix2 := hp.mem_iff.mp hr
      rw [e1, e2, createArrayBuffer_getD bytes matrix2 i hi, createArrayBuffer_getD bytes matrix i hi,
        foldl_applyRowBuf_write r i (hw r hr) hcov matrix2 _ hr2 hd2,
        foldl_applyRowBuf_write r i (hw r hr) hcov matrix _ hr hd]
    · push_neg at hc
      have hc2 : ∀ r ∈ matrix2, ¬ covers r i := fun r hr => hc r (hp.mem_iff.mpr hr)
      rw [e1, e2, createArrayBuffer_zero_byte bytes matrix2 i hi hc2,
        createArrayBuffer_zero_byte bytes matrix i hi hc]

theorem readBE_reconstruct (buf : List Nat) (v : Nat) :
    ∀ (k off : Nat), (∀ j, j < k → buf.getD (off + j) 0 = v / 256 ^ (k - 1 - j) % 256) →
      readBE buf off k = v % 256 ^ k := by
  intro k
  induction k with
  | zero => intro off _; simp [readBE, Nat.mod_one]
  | succ k ih =>
    intro off h
    simp only [readBE]
    have h0 := h 0 (Nat.succ_pos k)
    rw [Nat.add_zero, show k + 1 - 1 - 0 = k by omega] at h0
    have htail : ∀ j, j < k → buf.getD (off + 1 + j) 0 = v / 256 ^ (k - 1 - j) % 256 := by
      intro j hj
      have hh := h (j + 1) (Nat.succ_lt_succ hj)
      rw [show off + (j + 1) = off + 1 + j by omega,
        show k + 1 - 1 - (j + 1) = k - 1 - j by omega] at hh
      exact hh
    rw [ih (off + 1) htail, h0]
    have h1 : v % 256 ^ (k + 1) = 256 ^ k * (v / 256 ^ k % 256) + v % 256 ^ k := by
      have e1 : (256 : Nat) ^ (k + 1) = 256 ^ k * 256 := by rw [pow_succ]
      rw [e1]
      have e2 : v % (256 ^ k * 256) / 256 ^ k = v / 256 ^ k % 256 :=
        Nat.mod_mul_right_div_self v (256 ^ k) 256
      have e3 : v % (256 ^ k * 256) % 256 ^ k = v % 256 ^ k :=
        Nat.mod_mod_of_dvd v ⟨256, rfl⟩
      calc v % (256 ^ k * 256)
          = 256 ^ k * (v % (256 ^ k * 256) / 256 ^ k) + v % (256 ^ k * 256) % 256 ^ k :=
            (Nat.div_add_mod _ _).symm
        _ = 256 ^ k * (v / 256 ^ k % 256) + v % 256 ^ k := by rw [e2, e3]
    rw [h1]
    ring

/-! ### Lemmas about longestPrefixMatch -/

theorem jsIndexOf_lt_length (l : List Nat) (x k : Nat) (h : jsIndexOf l x = some k) :
    k < l.length := by
  induction l generalizing k with
  | nil => simp [jsIndexOf] at h
  | cons a t ih =>
    unfold jsIndexOf at h
    by_cases ha : a = x
    · rw [if_pos ha] at h
      cases h
      simp
    · rw [if_neg ha] at h
      rcases Option.map_eq_some'.mp h with ⟨j, hj, rfl⟩
      exact Nat.succ_lt_succ (ih j hj)

theorem jsIndexOf_mem (l : List Nat) (x : Nat) (h : x ∈ l) :
    ∃ k, jsIndexOf l x = some k := by
  induction l with
  | nil => cases h
  | cons a t ih =>
    unfold jsIndexOf
    by_cases ha : a = x
    · exact ⟨0, by rw [if_pos ha]⟩
    · rw [if_neg ha]
      rcases List.mem_cons.mp h with rfl | ht
      · exact absurd rfl ha
      · rcases ih ht with ⟨k, hk⟩
        exact ⟨k + 1, by rw [hk]; rfl⟩

theorem foldl_max_mem : ∀ (l : List Nat) (a : Nat), l.foldl max a = a ∨ l.foldl max a ∈ l := by
  intro l
  induction l with
  | nil => intro a; exact Or.inl rfl
  | cons b t ih =>
    intro a
    rw [List.foldl_cons]
    rcases ih (max a b) with h | h
    · rw [h]
      rcases max_choice a b with h2 | h2
      · exact Or.inl h2
      · rw [h2]
        exact Or.inr (List.mem_cons_self b t)
    · exact Or.inr (List.mem_cons_of_mem b h)

theorem foldl_max_zero_mem (l : List Nat) (h : l ≠ []) : l.foldl max 0 ∈ l := by
  cases l with
  | nil => exact absurd rfl h
  | cons b t =>
    rw [List.foldl_cons, Nat.zero_max]
    rcases foldl_max_mem t b with h2 | h2
    · rw [h2]
      exact List.mem_cons_self b t
    · exact List.mem_cons_of_mem b h2

theorem prefixMatchLoop_eq_none_iff (ip m : Nat) :
    prefixMatchLoop ip m = none ↔ ip / 2 = m / 2 := by
  unfold prefixMatchLoop
  rw [Option.map_eq_none', List.find?_eq_none]
  constructor
  · intro h
    have h31 := h 31 (by decide)
    have hm : matchMask ip m 31 = true := by
      cases hmm : matchMask ip m 31
      · exact absurd (by rw [hmm]; rfl) h31
      · rfl
    unfold matchMask at hm
    rw [beq_iff_eq] at hm
    norm_num at hm
    exact hm
  · intro h x hx hpx
    have hx' := List.mem_range'_1.mp hx
    have hdiv : ip / 2 ^ (32 - x) = m / 2 ^ (32 - x) := by
      have e32 : 32 - x = (31 - x) + 1 := by omega
      rw [e32, pow_succ', ← Nat.div_div_eq_div_mul, ← Nat.div_div_eq_div_mul, h]
    rw [Bool.not_eq_true'] at hpx
    unfold matchMask at hpx
    rw [beq_eq_false_iff_ne] at hpx
    exact hpx hdiv

theorem routerPrefixMatches_ne_nil (m : Nat) :
    ROUTER_IPS.filterMap (fun ip => prefixMatchLoop ip m) ≠ [] := by
  intro h
  rw [List.filterMap_eq_nil_iff] at h
  have h0 := (prefixMatchLoop_eq_none_iff (ipv4 192 168 1 1) m).mp (h _ (by decide))
  have h3 := (prefixMatchLoop_eq_none_iff (ipv4 192 168 0 1) m).mp (h _ (by decide))
  exact absurd (h0.trans h3.symm) (by decide)

theorem longestPrefixMatch_ROUTER_some (m : Nat) :
    ∃ r, r ∈ ROUTER_IPS ∧ longestPrefixMatch ROUTER_IPS m = some r := by
  have hne := routerPrefixMatches_ne_nil m
  have hmx := foldl_max_zero_mem _ hne
  rcases jsIndexOf_mem _ _ hmx with ⟨k, hk⟩
  have hklen := jsIndexOf_lt_length _ _ k hk
  have hkR : k < ROUTER_IPS.length :=
    lt_of_lt_of_le hklen (List.length_filterMap_le _ _)
  refine ⟨ROUTER_IPS.get ⟨k, hkR⟩, List.get_mem _ _ _, ?_⟩
  simp only [longestPrefixMatch]
  rw [hk]
  exact List.get?_eq_get hkR

/-! ### Claim theorems -/

/-- C1: the claim fails on the code.  The private address 192.168.1.1 is
itself a member of the gateway table (shared prefix length 32, the maximum),
yet filterRouterIps selects 192.168.102.1, whose shared prefix length with
it is only 17: the inner loop of longestPrefixMatch pushes nothing for a
table entry sharing 31 or more bits, so the argmax index is computed
against a shifted list. -/
theorem filterRouterIps_not_longest :
    isPrivateIPv4 (ipv4 192 168 1 1) ∧
    ipv4 192 168 1 1 ∈ ROUTER_IPS ∧
    filterRouterIps [ipv4 192 168 1 1] = [some (ipv4 192 168 102 1)] ∧
    sharedPrefixLen (ipv4 192 168 102 1) (ipv4 192 168 1 1) = 17 ∧
    sharedPrefixLen (ipv4 192 168 1 1) (ipv4 192 168 1 1) = 32 := by
  refine ⟨by decide, by decide, by decide, by decide, by decide⟩

/-- C2: the claim fails on the code.  For the non-empty valid list
containing exactly 10.0.1.1 and matchIp 10.0.1.1 (so matchIp occurs in the
list), longestPrefixMatch returns undefined (none) rather than an element
of the list: the inner loop breaks for no mask, prefixMatches stays empty,
Math.max of an empty array is -Infinity and its indexOf is -1. -/
theorem longestPrefixMatch_self_undefined :
    ipv4 10 0 1 1 ∈ [ipv4 10 0 1 1] ∧
    longestPrefixMatch [ipv4 10 0 1 1] (ipv4 10 0 1 1) = none := by
  refine ⟨by decide, by decide⟩

/-- C3 as stated is false: the row (8, 0, 256) has an accepted width, an
in-bounds offset and no overlap, yet the value 256 does not survive the
encode-decode round trip, because the write keeps only the low 8 bits. -/
theorem decode_roundtrip_counterexample :
    widthOk ((8 : Nat), (0 : Nat), (256 : Nat)) ∧
    (0 : Nat) + rowBytes (8, 0, 256) ≤ 1 ∧
    List.Pairwise rowsDisjoint [((8 : Nat), (0 : Nat), (256 : Nat))] ∧
    decodeFields (createArrayBuffer 1 [(8, 0, 256)]).1 [(8, 0, 256)]
      ≠ [((8 : Nat), (0 : Nat), (256 : Nat))].map (fun r => r.2.2) := by
  refine ⟨by decide, by decide, by simp, by decide⟩

/-- C3 (amended: each value also fits its field width, value < 2^width):
decoding the buffer produced by createArrayBuffer with the symmetric
big-endian read at the same offsets and widths reproduces the original
field values exactly. -/
theorem createArrayBuffer_decode_roundtrip (bytes : Nat) (matrix : List Row)
    (hw : ∀ r ∈ matrix, widthOk r)
    (hb : ∀ r ∈ matrix, r.2.1 + rowBytes r ≤ bytes)
    (hd : matrix.Pairwise rowsDisjoint)
    (hv : ∀ r ∈ matrix, r.2.2 < 2 ^ r.1) :
    decodeFields (createArrayBuffer bytes matrix).1 matrix
      = matrix.map (fun r => r.2.2) := by
  unfold decodeFields
  refine List.map_congr_left ?_
  intro r hr
  have hwr := hw r hr
  have hbytes : ∀ j, j < rowBytes r →
      (createArrayBuffer bytes matrix).1.getD (r.2.1 + j) 0
        = r.2.2 / 256 ^ (rowBytes r - 1 - j) % 256 :=
    fun j hj => createArrayBuffer_field_byte bytes matrix r j hr hwr hj (hb r hr) hd
  rw [readBE_reconstruct (createArrayBuffer bytes matrix).1 r.2.2 (rowBytes r) r.2.1 hbytes]
  have h2 : (256 : Nat) ^ rowBytes r = 2 ^ r.1 := by
    rcases hwr with h | h | h <;> rw [rowBytes, h] <;> norm_num
  rw [h2]
  exact Nat.mod_eq_of_lt (hv r hr)

/-- The two example rows of the witnesses touch no common byte. -/
theorem pairwiseExampleRows :
    List.Pairwise rowsDisjoint [((16 : Nat), (0 : Nat), (258 : Nat)), ((8 : Nat), (3 : Nat), (7 : Nat))] := by
  refine List.pairwise_cons.mpr ⟨?_, by simp⟩
  intro s hs
  rw [List.mem_singleton] at hs
  subst hs
  intro i hc
  simp only [covers, rowBytes] at hc
  omega

/-- Witness for the amended C3 theorem at a concrete valid field-spec
list. -/
theorem createArrayBuffer_decode_roundtrip_witness :
    decodeFields (createArrayBuffer 4 [(16, 0, 258), (8, 3, 7)]).1 [(16, 0, 258), (8, 3, 7)]
      = [((16 : Nat), (0 : Nat), (258 : Nat)), ((8 : Nat), (3 : Nat), (7 : Nat))].map (fun r => r.2.2) :=
  createArrayBuffer_decode_roundtrip 4 [(16, 0, 258), (8, 3, 7)]
    (by decide) (by decide) pairwiseExampleRows (by decide)

/-- C4: for a field-spec list with accepted widths, in-bounds offsets and
pairwise non-overlapping fields, createArrayBuffer returns a buffer of
exactly the requested size, each field's bytes are the big-endian base-256
digits of its value, every byte not covered by a field is zero, and the
result is the same for every order of the rows. -/
theorem createArrayBuffer_spec (bytes : Nat) (matrix : List Row)
    (hw : ∀ r ∈ matrix, widthOk r)
    (hb : ∀ r ∈ matrix, r.2.1 + rowBytes r ≤ bytes)
    (hd : matrix.Pairwise rowsDisjoint) :
    (createArrayBuffer bytes matrix).1.length = bytes ∧
    (∀ r ∈ matrix, ∀ j, j < rowBytes r →
      (createArrayBuffer bytes matrix).1.getD (r.2.1 + j) 0
        = r.2.2 / 256 ^ (rowBytes r - 1 - j) % 256) ∧
    (∀ i, i < bytes → (∀ r ∈ matrix, ¬ covers r i) →
      (createArrayBuffer bytes matrix).1.getD i 0 = 0) ∧
    (∀ matrix2, matrix.Perm matrix2 →
      (createArrayBuffer bytes matrix2).1 = (createArrayBuffer bytes matrix).1) := by
  refine ⟨createArrayBuffer_length bytes matrix, ?_, ?_, ?_⟩
  · intro r hr j hj
    exact createArrayBuffer_field_byte bytes matrix r j hr (hw r hr) hj (hb r hr) hd
  · intro i hi h
    exact createArrayBuffer_zero_byte bytes matrix i hi h
  · intro m2 hp
    exact createArrayBuffer_perm bytes matrix m2 hw hd hp

/-- Witness for the C4 theorem at a concrete valid field-spec list. -/
theorem createArrayBuffer_spec_witness :
    (createArrayBuffer 4 [(16, 0, 258), (8, 3, 7)]).1.length = 4 ∧
    (createArrayBuffer 4 [(16, 0, 258), (8, 3, 7)]).1.getD 2 0 = 0 :=
  ⟨(createArrayBuffer_spec 4 [(16, 0, 258), (8, 3, 7)] (by decide) (by decide) pairwiseExampleRows).1,
   (createArrayBuffer_spec 4 [(16, 0, 258), (8, 3, 7)] (by decide) (by decide) pairwiseExampleRows).2.2.1
     2 (by decide) (by decide)⟩

/-- C5: every row whose width is outside 8, 16, 32 takes the error path,
contributing exactly one console.error report, and contributes no write:
the buffer bytes equal those produced by the accepted-width rows alone.
The hypothesis keeps every accepted-width row in bounds, the domain on
which the embedding matches DataView (out of bounds, the program throws
RangeError instead of writing); rows on the error path never reach a
DataView setter, so they need no bound. -/
theorem createArrayBuffer_invalid_width (bytes : Nat) (matrix : List Row)
    (hb : ∀ r ∈ matrix, widthOk r → r.2.1 + rowBytes r ≤ bytes) :
    (createArrayBuffer bytes matrix).2.length = matrix.countP (fun r => ! widthOkB r) ∧
    (createArrayBuffer bytes matrix).1 = (createArrayBuffer bytes (matrix.filter widthOkB)).1 := by
  constructor
  · show (matrix.foldl applyRow (fun _ => 0, [])).2.length = _
    rw [foldl_applyRow_snd_len]
    simp
  · show ((List.range bytes).map (matrix.foldl applyRow (fun _ => 0, [])).1)
        = ((List.range bytes).map ((matrix.filter widthOkB).foldl applyRow (fun _ => 0, [])).1)
    rw [foldl_applyRow_fst, foldl_applyRow_fst, ← foldl_applyRowBuf_filter]

/-- Witness for the C5 theorem at a concrete matrix mixing an in-bounds
accepted-width row with an invalid-width row. -/
theorem createArrayBuffer_invalid_width_witness :
    (createArrayBuffer 2 [(16, 0, 258), (7, 0, 1)]).2.length
      = [((16 : Nat), (0 : Nat), (258 : Nat)), ((7 : Nat), (0 : Nat), (1 : Nat))].countP
          (fun r => ! widthOkB r) ∧
    (createArrayBuffer 2 [(16, 0, 258), (7, 0, 1)]).1
      = (createArrayBuffer 2 ([(16, 0, 258), (7, 0, 1)].filter widthOkB)).1 :=
  createArrayBuffer_invalid_width 2 [(16, 0, 258), (7, 0, 1)] (by decide)

/-- C6: once the countdown elapses unpreempted, the trace rejects with
exactly the given message as its final event; a supplied cleanup callback
runs exactly once, strictly before the rejection; without a callback the
trace is the bare rejection. -/
theorem countdownReject_spec (time : Nat) (msg : String) (cb : Option Unit) :
    (countdownReject time msg cb).getLast? = some (TimerEvent.rejectErr msg) ∧
    (countdownReject time msg cb).countP isCallbackRun = (if cb.isSome then 1 else 0) ∧
    (cb.isSome = true →
      countdownReject time msg cb = [TimerEvent.callbackRun, TimerEvent.rejectErr msg]) ∧
    (cb = none → countdownReject time msg cb = [TimerEvent.rejectErr msg]) := by
  cases cb <;>
    simp [countdownReject, isCallbackRun, List.countP_cons, List.countP_nil]

/-- Witness for the C6 theorem at a concrete duration, message and
callback, and with the callback absent. -/
theorem countdownReject_spec_witness :
    countdownReject 5 "probe timeout" (some ())
      = [TimerEvent.callbackRun, TimerEvent.rejectErr "probe timeout"] ∧
    countdownReject 5 "probe timeout" none = [TimerEvent.rejectErr "probe timeout"] :=
  ⟨(countdownReject_spec 5 "probe timeout" (some ())).2.2.1 rfl,
   (countdownReject_spec 5 "probe timeout" none).2.2.2 rfl⟩

/-- C7: arrAdd A B is exactly the first-occurrence deduplication of A ++ B:
each element of A, then each new element of B, each exactly once, in
first-seen order; in particular the result has no duplicates and its
members are exactly those of A and B. -/
theorem arrAdd_spec {α : Type} [DecidableEq α] (A B : List α) :
    arrAdd A B = dedupFirst (A ++ B) ∧
    (arrAdd A B).Nodup ∧
    (∀ x, x ∈ arrAdd A B ↔ x ∈ A ∨ x ∈ B) := by
  refine ⟨arrAdd_eq_dedupFirst A B, ?_, ?_⟩
  · rw [arrAdd_eq_dedupFirst]
    exact nodup_dedupFirstAux _ _
  · intro x
    rw [arrAdd_eq_dedupFirst, dedupFirst, mem_dedupFirstAux]
    simp

/-- Witness for the C7 theorem at concrete lists. -/
theorem arrAdd_spec_witness :
    arrAdd [1, 2] [2, 3] = dedupFirst (([1, 2] : List Nat) ++ [2, 3]) ∧
    (arrAdd ([1, 2] : List Nat) [2, 3]).Nodup :=
  ⟨(arrAdd_spec [1, 2] [2, 3]).1, (arrAdd_spec [1, 2] [2, 3]).2.1⟩

/-- C8 as stated is false: arrDiff does not deduplicate, so for A = [1, 1]
and B = [] the result [1, 1] contains a duplicate, against the claimed set
semantics. -/
theorem arrDiff_counterexample :
    arrDiff [1, 1] ([] : List Nat) = [1, 1] ∧
    ¬ (arrDiff [1, 1] ([] : List Nat)).Nodup := by
  refine ⟨by decide, by decide⟩

/-- C8 (amended: the result keeps one entry per occurrence in A rather than
deduplicating): arrDiff A B is the sublist of A of exactly those elements
absent from B, in A's order, with no duplicates whenever A itself has
none. -/
theorem arrDiff_spec {α : Type} [DecidableEq α] (A B : List α) :
    arrDiff A B = A.filter (fun a => a ∉ B) ∧
    (∀ x, x ∈ arrDiff A B ↔ x ∈ A ∧ x ∉ B) ∧
    List.Sublist (arrDiff A B) A ∧
    (A.Nodup → (arrDiff A B).Nodup) := by
  refine ⟨arrDiff_eq_filter A B, ?_, ?_, ?_⟩
  · intro x
    rw [arrDiff_eq_filter]
    simp
  · rw [arrDiff_eq_filter]
    exact List.filter_sublist A
  · intro h
    rw [arrDiff_eq_filter]
    exact h.filter _

/-- Witness for the C8 amended theorem at concrete lists. -/
theorem arrDiff_spec_witness :
    List.Sublist (arrDiff ([1, 2] : List Nat) [2]) [1, 2] ∧
    (arrDiff ([1, 2] : List Nat) [2]).Nodup :=
  ⟨(arrDiff_spec [1, 2] [2]).2.2.1, (arrDiff_spec [1, 2] [2]).2.2.2 (by decide)⟩

/-- C9: filterRouterIps maps over the private addresses, returning the
empty list on empty input, one entry per input address in input order, and
each entry is the longestPrefixMatch result for that address, which for the
fixed gateway table is always an actual member of the table. -/
theorem filterRouterIps_spec (privateIps : List Nat) :
    filterRouterIps ([] : List Nat) = [] ∧
    (filterRouterIps privateIps).length = privateIps.length ∧
    (∀ i, i < privateIps.length →
      (filterRouterIps privateIps).getD i none
        = longestPrefixMatch ROUTER_IPS (privateIps.getD i 0) ∧
      ∃ r, r ∈ ROUTER_IPS ∧ (filterRouterIps privateIps).getD i none = some r) := by
  refine ⟨rfl, by simp [filterRouterIps], ?_⟩
  intro i hi
  have hgd : (filterRouterIps privateIps).getD i none
      = longestPrefixMatch ROUTER_IPS (privateIps.getD i 0) := by
    unfold filterRouterIps
    rw [List.getD_eq_getElem?_getD, List.getElem?_map, List.getElem?_eq_getElem hi,
      List.getD_eq_getElem privateIps 0 hi]
    rfl
  refine ⟨hgd, ?_⟩
  rw [hgd]
  exact longestPrefixMatch_ROUTER_some (privateIps.getD i 0)

/-- Witness for the C9 theorem at a concrete private address. -/
theorem filterRouterIps_spec_witness :
    (filterRouterIps [ipv4 10 0 0 5]).getD 0 none
      = longestPrefixMatch ROUTER_IPS ([ipv4 10 0 0 5].getD 0 0) :=
  ((filterRouterIps_spec [ipv4 10 0 0 5]).2.2 0 (by decide)).1

/-- C10: the Mapping constructor sets externalPort to the sentinel -1 and
leaves every other field unset. -/
theorem newMapping_fields :
    newMapping.externalPort = -1 ∧
    newMapping.internalIp = none ∧
    newMapping.internalPort = none ∧
    newMapping.externalIp = none ∧
    newMapping.lifetime = none ∧
    newMapping.protocol = none ∧
    newMapping.timeoutId = none ∧
    newMapping.nonce = none ∧
    newMapping.deleter = none ∧
    newMapping.errInfo = none :=
  ⟨rfl, rfl, rfl, rfl, rfl, rfl, rfl, rfl, rfl, rfl⟩

end NatPuncher
